import Mathlib

set_option autoImplicit false

/-!
Shallow embedding of the name-resolution pass of the `vulpi` compiler front end.

The embedding covers two resolver implementations that are present in the
repository under `crates/vulpi-resolver/src`:

* the current resolver in `lib.rs` (namespace `Resolver` below), whose
  pattern-linearity machinery lives in `Context::scope_pattern`,
  `Context::add_pattern` and `Context::scope_or_pattern`, and whose global
  lookups go through `Context::find_val`;

* the older resolver in `resolve.rs` (namespace `Legacy` below), which works
  over the `vulpi_syntax::resolved` output tree and performs its lookups
  through `Context::canonicalize`, `Context::find_import` and
  `Context::find`.

The resolved-reference type `Qualified` of `vulpi-syntax/src/resolved.rs`,
with its hand-written `PartialEq` and `Hash` instances, is embedded as
`Legacy.RQualified`.

Supporting structures whose source files are not part of the snapshot
(`scopes::Kaleidoscope`, `namespace::Namespace`, `module_tree::ModuleTree`,
`ambiguity::ImportMap`) are modelled from the specification, as indicated in
their doc comments.
-/

/-- Interned identifier handle (`vulpi_intern::Symbol` /
`vulpi_storage::interner::Symbol`): equality is handle equality. -/
abbrev VSym := String

/-- Byte-offset interval into the source text (`Span` / `Range<Byte>`).
Carried through the resolvers, never interpreted. -/
abbrev Span := Nat × Nat

/-- Namespace handle (`ModuleId` in `lib.rs`, `Id<id::Namespace>` in
`resolve.rs`): a small integer index into the namespace registry. -/
abbrev ModuleId := Nat

/-- Lookup in an association list, mirroring `HashMap::get`. -/
def alistGet {α : Type} (m : List (VSym × α)) (k : VSym) : Option α :=
  match m with
  | [] => none
  | (k', v) :: rest => if k' = k then some v else alistGet rest k

/-- Insert with overwrite, mirroring `HashMap::insert` (the returned
old value is the `isSome` of the lookup before insertion). -/
def alistInsert {α : Type} (m : List (VSym × α)) (k : VSym) (v : α) :
    List (VSym × α) :=
  match m with
  | [] => [(k, v)]
  | (k', v') :: rest =>
    if k' = k then (k', v) :: rest else (k', v') :: alistInsert rest k v

/-- Keys of an association list. -/
def alistKeys {α : Type} (m : List (VSym × α)) : List VSym := m.map (·.1)

/-- `HashMap::extend`: insert every binding of `src` into `dst`,
overwriting existing keys. -/
def alistExtend {α : Type} (dst src : List (VSym × α)) : List (VSym × α) :=
  src.foldl (fun acc (p : VSym × α) => alistInsert acc p.1 p.2) dst

namespace Legacy

/-- The resolved reference of `vulpi-syntax/src/resolved.rs`: either a
canonical namespace id together with the final symbol, or an error marker.
Both variants carry a source range. -/
inductive RQualified where
  | resolved (canonical : ModuleId) (last : VSym) (range : Span)
  | error (range : Span)
deriving DecidableEq, Repr

/-- The hand-written `PartialEq for Qualified`: two `Resolved` values are
compared by canonical namespace and final symbol, ignoring the range; every
pair involving an `Error` marker compares unequal. -/
def RQualified.beq : RQualified → RQualified → Bool
  | .resolved c₁ l₁ _, .resolved c₂ l₂ _ => c₁ = c₂ ∧ l₁ = l₂
  | _, _ => false

/-- One value written to a `Hasher`. -/
inductive HashToken where
  | nat (n : Nat)
  | sym (s : VSym)
deriving DecidableEq, Repr

/-- The hand-written `Hash for Qualified` as the stream of values written to
the hasher: a `Resolved` value writes its canonical id and final symbol (the
range is skipped); an `Error` value writes nothing. -/
def RQualified.hashWrites : RQualified → List HashToken
  | .resolved c l _ => [.nat c, .sym l]
  | .error _ => []

/-- `Qualified::get_range`. -/
def RQualified.getRange : RQualified → Span
  | .resolved _ _ r => r
  | .error r => r

end Legacy

/-- The name-class tag of a declaration (`ambiguity::DataType` of
`resolve.rs`; the file is absent from the snapshot, so the variants are the
three constructed in `resolve.rs`: `Let`, `Type` and `Constructor`), each
carrying the declared symbol. -/
inductive DataType where
  | dtLet (s : VSym)
  | dtType (s : VSym)
  | dtConstructor (s : VSym)
deriving DecidableEq, Repr

/-- `DataType::symbol`. -/
def DataType.symbol : DataType → VSym
  | .dtLet s => s
  | .dtType s => s
  | .dtConstructor s => s

namespace Resolver

/-- Diagnostic kinds reported by the resolvers (`ResolverErrorKind` in
`vulpi-resolver/src/error.rs`; the file is absent from the snapshot, so the
variants are those constructed in `lib.rs` and `resolve.rs` and listed in
the specification's error taxonomy). -/
inductive ErrKind where
  | notFound (path : List VSym)
  | invalidPath (path : List VSym)
  | privateDefinition
  | duplicatePattern (s : VSym)
  | variableAlreadyCaptured (s : VSym)
  | variableNotBoundOnBothSides (s : VSym)
  | expectedConstructor
  | expectedEffect
  | expectedFunction
  | expectedRecordType
  | cannotFindModule (path : List VSym)
  | cannotFind (d : DataType)
  | ambiguousImport (d : DataType)
deriving DecidableEq, Repr

/-- Visibility tag of a declared item (`namespace::Visibility`). -/
inductive Visibility where
  | publicVis
  | privateVis
deriving DecidableEq, Repr

/-- A fully qualified reference of the abstract output tree
(`vulpi_syntax::abstract::Qualified`). Modelled from the spec: a qualified
reference is the target namespace id plus the final symbol. -/
structure AQualified where
  canonical : ModuleId
  last : VSym
deriving DecidableEq, Repr

/-- Value-kind payload of a namespace entry (`namespace::Value`): the
variants matched in `lib.rs` are `Module`, `Field`, `Function`, `Effect`
and `Constructor`. -/
inductive Value where
  | module (m : ModuleId)
  | field (q : AQualified)
  | function (q : AQualified)
  | effect (q : AQualified)
  | constructor (q : AQualified)
deriving DecidableEq, Repr

/-- Type-kind payload of a namespace entry (`namespace::TypeValue`): the
spec's type kinds are plain types, records and enums/sums; `lib.rs` matches
the `Record` variant. -/
inductive TypeValue where
  | plain (q : AQualified)
  | record (q : AQualified)
  | enum (q : AQualified)
deriving DecidableEq, Repr

/-- A namespace entry with its visibility (`namespace::Item<T>`). -/
structure Item (α : Type) where
  item : α
  visibility : Visibility
deriving DecidableEq, Repr

/-- One module's registry record (`namespace::Namespace`): maps of declared
values, types and submodules, plus the `pass_through` re-export flag read by
`Context::find_val`. -/
structure Namespace where
  values : List (VSym × Item Value)
  types : List (VSym × Item TypeValue)
  modules : List (VSym × Item ModuleId)
  passThrough : Bool
deriving Repr

/-- The empty namespace, used as the out-of-range default for the
`self.namespaces[i]` index (the source indexes unconditionally; all runs
stay in bounds). -/
def emptyNamespace : Namespace :=
  { values := [], types := [], modules := [], passThrough := false }

/-- `self.namespaces[i]`. -/
def getNs (nss : List Namespace) (i : ModuleId) : Namespace :=
  nss.getD i emptyNamespace

/-- The module-walking loop of `Context::find_val`: starting from namespace
`mid`, follow each leading path segment through the `modules` map.  Stepping
into an entry that is `Private` while the current module `current` differs
from the module holding the entry aborts the whole lookup (`none`).  The
loop stops when one segment remains, or when a segment is not a submodule
(leaving the remaining segments for the final lookup). -/
def walkModules (nss : List Namespace) (current : ModuleId) :
    ModuleId → List VSym → Option (ModuleId × List VSym)
  | mid, [] => some (mid, [])
  | mid, head :: tail =>
    match alistGet (getNs nss mid).modules head with
    | some it =>
      if it.visibility = .privateVis ∧ current ≠ mid then none
      else if tail.length = 1 then some (it.item, tail)
      else walkModules nss current it.item tail
    | none => some (mid, tail)

/-- Whether the module walk of `find_val` reaches an intermediate path
segment that is `Private` in a namespace other than the current module
(the condition under which the walk aborts). -/
def hitsPrivate (nss : List Namespace) (current : ModuleId) :
    ModuleId → List VSym → Bool
  | _, [] => false
  | mid, head :: tail =>
    match alistGet (getNs nss mid).modules head with
    | some it =>
      if it.visibility = .privateVis ∧ current ≠ mid then true
      else if tail.length = 1 then false
      else hitsPrivate nss current it.item tail
    | none => false

/-- `Context::find_val`, the qualified lookup of `lib.rs`.  `current` is the
id of the module being resolved (`self.tree.find(&self.name)`), `mid` the
namespace the lookup starts from (`self.main` at both call sites), `name`
the path, and `proj` selects the `values` or `types` map.  Returns the found
item (if any) together with the diagnostics reported.  The leading module
walk (run only when the path has more than one segment) is split out as
`findValStart`. -/
def findValStart (nss : List Namespace) (current mid : ModuleId)
    (name : List VSym) : Option (ModuleId × List VSym) :=
  if name.length > 1 then walkModules nss current mid name
  else some (mid, name)

def findVal {α : Type} (nss : List Namespace) (current mid : ModuleId)
    (name : List VSym) (proj : Namespace → List (VSym × Item α)) :
    Option (Item α) × List ErrKind :=
  match findValStart nss current mid name with
  | none => (none, [.privateDefinition])
  | some (mid', name') =>
    match name' with
    | [last] =>
      match alistGet (proj (getNs nss mid')) last with
      | none => (none, [.notFound name'])
      | some result =>
        if result.visibility = .privateVis ∧ mid' ≠ current ∧
            (getNs nss mid').passThrough = false
        then (none, [.privateDefinition])
        else (some result, [])
    | _ => (none, [.invalidPath name'])

/-- `Context::find_value`: value lookup starting from the root namespace
(`self.main = ModuleId(0)`). -/
def findValue (nss : List Namespace) (current : ModuleId)
    (name : List VSym) : Option (Item Value) × List ErrKind :=
  findVal nss current 0 name (·.values)

/-- `Context::find_type`: type lookup starting from the root namespace. -/
def findType (nss : List Namespace) (current : ModuleId)
    (name : List VSym) : Option (Item TypeValue) × List ErrKind :=
  findVal nss current 0 name (·.types)

end Resolver

/-- Registry for the privacy scenario of the spec: the root namespace `0`
holds public modules `A` (namespace `1`) and `B` (namespace `2`), and `A`
privately declares the value `secret`. -/
def privacyRegistry : List Resolver.Namespace :=
  [{ values := [], types := [],
     modules := [("A", ⟨1, .publicVis⟩), ("B", ⟨2, .publicVis⟩)],
     passThrough := false },
   { values := [("secret", ⟨.function ⟨1, "secret"⟩, .privateVis⟩)],
     types := [], modules := [], passThrough := false },
   { values := [], types := [], modules := [], passThrough := false }]

/-- Variant of `privacyRegistry` where the module entry `A` itself is
private in the root namespace, while `secret` is public inside `A`. -/
def privacyRegistryHiddenModule : List Resolver.Namespace :=
  [{ values := [], types := [],
     modules := [("A", ⟨1, .privateVis⟩), ("B", ⟨2, .publicVis⟩)],
     passThrough := false },
   { values := [("secret", ⟨.function ⟨1, "secret"⟩, .publicVis⟩)],
     types := [], modules := [], passThrough := false },
   { values := [], types := [], modules := [], passThrough := false }]

namespace Resolver

/-- The mutable resolver state of `lib.rs` threaded through traversal
(the `scopes`, `patterns` and `reporter` fields of `Context`; the read-only
registry and the current module id are passed separately).  `patterns` is
the capture-map stack with its top at the head; `varScopes` is the Variable
capability of the Kaleidoscope, innermost frame first; `errs` is the
diagnostic sink in report order; `panicked` records that the run aborted
abnormally (a `todo!()` or an `unwrap()` on an empty stack). -/
structure Ctx where
  patterns : List (List (VSym × Span))
  varScopes : List (List VSym)
  errs : List ErrKind
  panicked : Bool
deriving Repr

/-- The initial state of one resolution run. -/
def Ctx.initial : Ctx :=
  { patterns := [], varScopes := [], errs := [], panicked := false }

/-- Modelled from the spec: `Kaleidoscope::add::<Variable>` inserts a symbol
into the innermost open frame of the Variable capability (an ambient frame
is created if none is open). -/
def kaleidoAdd (frames : List (List VSym)) (s : VSym) : List (List VSym) :=
  match frames with
  | [] => [[s]]
  | f :: rest => (s :: f) :: rest

/-- Modelled from the spec: `Kaleidoscope::contains::<Variable>` searches
every frame of the Variable capability. -/
def kaleidoContains (frames : List (List VSym)) (s : VSym) : Bool :=
  frames.any (fun f => f.contains s)

/-- `Context::add_pattern`: insert a bound pattern variable into the top
capture map; if the key was already present report `DuplicatePattern` and
answer `false` (the occurrence becomes an error node).  The source unwraps
`patterns.last_mut()`, so an empty capture stack is an abnormal stop. -/
def addPattern (ctx : Ctx) (name : VSym) (span : Span) : Bool × Ctx :=
  match ctx.patterns with
  | [] => (false, { ctx with panicked := true })
  | m :: rest =>
    let m' := alistInsert m name span
    if (alistGet m name).isSome then
      (false, { ctx with
                patterns := m' :: rest
                errs := ctx.errs ++ [.duplicatePattern name] })
    else
      (true, { ctx with patterns := m' :: rest })

/-- The entry half of `Context::scope_pattern`: when no capture map is open
push a fresh one and remember that this call owns the scope transaction. -/
def scopePatternEnter (ctx : Ctx) : Bool × Ctx :=
  if ctx.patterns.isEmpty then (true, { ctx with patterns := [[]] })
  else (false, ctx)

/-- The exit half of `Context::scope_pattern`: the owner pops its capture
map and promotes every captured symbol into the Variable capability of the
scope stack. -/
def scopePatternExit (owner : Bool) (ctx : Ctx) : Ctx :=
  if owner then
    match ctx.patterns with
    | [] => { ctx with panicked := true }
    | m :: rest =>
      { ctx with
        patterns := rest
        varScopes := m.foldl (fun fs p => kaleidoAdd fs p.1) ctx.varScopes }
  else ctx

/-- Elements of a list absent from another (key sets of the capture maps
are duplicate-free, so this computes set difference). -/
def listDiff (xs ys : List VSym) : List VSym :=
  xs.filter (fun x => ¬ ys.contains x)

/-- The symmetric difference of the two branch capture maps computed by
`Context::scope_or_pattern` (`HashSet::symmetric_difference`; the set is
modelled in left-then-right order). -/
def symmDiffKeys (l r : List (VSym × Span)) : List VSym :=
  listDiff (alistKeys l) (alistKeys r) ++ listDiff (alistKeys r) (alistKeys l)

/-- The concrete pattern fragment consumed by the `lib.rs` resolver
(`concrete::pattern::PatternKind`), restricted to the binding-relevant
constructors: bound variables, wildcards, or-patterns, and constructor
applications (whose head is a value path looked up with `find_value`). -/
inductive CPat where
  | variable (s : VSym) (sp : Span)
  | wildcard
  | orP (l r : CPat)
  | application (func : List VSym) (sp : Span) (args : List CPat)
deriving Repr

/-- The abstract output pattern fragment (`abstract::PatternKind`). -/
inductive APat where
  | variable (s : VSym)
  | wildcard
  | orP (l r : APat)
  | application (func : AQualified) (args : List APat)
  | error
deriving Repr

mutual

/-- `PatternKind::resolve` of `lib.rs`: every case runs inside
`Context::scope_pattern`. -/
def resolveCPat (nss : List Namespace) (current : ModuleId)
    (p : CPat) (ctx : Ctx) : APat × Ctx :=
  let (owner, ctx1) := scopePatternEnter ctx
  let (out, ctx2) := resolveCPatCore nss current p ctx1
  (out, scopePatternExit owner ctx2)
termination_by (sizeOf p, 1)

/-- The case analysis inside `PatternKind::resolve`.  A bound variable goes
through `add_pattern` (an already-captured name produces an error node); an
or-pattern goes through `Context::scope_or_pattern`; a constructor
application resolves its head with `find_value` and only resolves its
arguments when the head is a constructor (`PatApplication::resolve`). -/
def resolveCPatCore (nss : List Namespace) (current : ModuleId)
    (p : CPat) (ctx : Ctx) : APat × Ctx :=
  match p with
  | .variable s sp =>
    let (ok, ctx') := addPattern ctx s sp
    (if ok then .variable s else .error, ctx')
  | .wildcard => (.wildcard, ctx)
  | .orP l r =>
    let ctx1 := { ctx with patterns := [] :: ctx.patterns }
    let (lo, ctx2) := resolveCPat nss current l ctx1
    match ctx2.patterns with
    | [] => (.error, { ctx2 with panicked := true })
    | leftPop :: rest2 =>
      let ctx3 := { ctx2 with patterns := [] :: rest2 }
      let (ro, ctx4) := resolveCPat nss current r ctx3
      match ctx4.patterns with
      | [] => (.error, { ctx4 with panicked := true })
      | rightPop :: rest4 =>
        let diff := symmDiffKeys leftPop rightPop
        let reports := diff.map (fun k => ErrKind.variableNotBoundOnBothSides k)
        match rest4 with
        | [] => (.error, { ctx4 with
                           patterns := []
                           panicked := true
                           errs := ctx4.errs ++ reports })
        | top :: below =>
          let ctx5 := { ctx4 with
            patterns := alistExtend top leftPop :: below
            errs := ctx4.errs ++ reports }
          if diff.isEmpty then (.orP lo ro, ctx5) else (.error, ctx5)
  | .application f _sp args =>
    match findValue nss current f with
    | (some ⟨.constructor q, _⟩, es) =>
      let ctx' := { ctx with errs := ctx.errs ++ es }
      let (argsOut, ctx'') := resolveCPatList nss current args ctx'
      (.application q argsOut, ctx'')
    | (some _, es) =>
      (.error, { ctx with errs := ctx.errs ++ es ++ [.expectedConstructor] })
    | (none, es) => (.error, { ctx with errs := ctx.errs ++ es })
termination_by (sizeOf p, 0)

/-- Resolution of a list of sub-patterns (the default `Vec<T>` traversal,
used for constructor arguments). -/
def resolveCPatList (nss : List Namespace) (current : ModuleId)
    (ps : List CPat) (ctx : Ctx) : List APat × Ctx :=
  match ps with
  | [] => ([], ctx)
  | p :: rest =>
    let (o, ctx') := resolveCPat nss current p ctx
    let (os, ctx'') := resolveCPatList nss current rest ctx'
    (o :: os, ctx'')
termination_by (sizeOf ps, 2)

end

/-- `impl Resolve for Vec<Pattern>`: a pattern row (e.g. the patterns of one
`when` arm) is resolved inside a single `scope_pattern` transaction. -/
def resolvePatternVec (nss : List Namespace) (current : ModuleId)
    (ps : List CPat) (ctx : Ctx) : List APat × Ctx :=
  let (owner, ctx1) := scopePatternEnter ctx
  let (out, ctx2) := resolveCPatList nss current ps ctx1
  (out, scopePatternExit owner ctx2)

/-- The abstract output expression fragment (`abstract::ExprKind`).  A
`when` arm (`abstract::PatternArm`) is a triple of its pattern row, its
body, and its optional guard. -/
inductive AExpr where
  | variable (s : VSym)
  | function (q : AQualified)
  | effect (q : AQualified)
  | constructor (q : AQualified)
  | literal (n : Nat)
  | whenE (scrutinee : AExpr) (arms : List (List APat × AExpr × Option AExpr))
  | error
deriving Repr

/-- The concrete input expression fragment consumed by `ExprKind::resolve`
of `lib.rs`: bare variable references, literals, and `if` expressions. -/
inductive LExpr where
  | variable (s : VSym) (sp : Span)
  | literal (n : Nat)
  | ifE (cond thenB elseB : LExpr) (sp : Span)
deriving Repr

/-- `find_constructor_raw` of `lib.rs`, specialised (as at its `IfExpr`
call site) to build a zero-argument constructor application pattern: a
`find_value` hit that is a constructor yields the pattern, a hit of any
other kind reports `ExpectedConstructor`, and a miss keeps only the
diagnostics `find_value` itself reported. -/
def findConstructorRaw (nss : List Namespace) (current : ModuleId)
    (_sp : Span) (x : List VSym) : APat × List ErrKind :=
  match findValue nss current x with
  | (some ⟨.constructor q, _⟩, es) => (.application q [], es)
  | (some _, es) => (.error, es ++ [.expectedConstructor])
  | (none, es) => (.error, es)

/-- The global fallback of the `ExprKind::Variable` branch of `lib.rs`,
taken when the symbol is not bound in the Variable capability: `find_value`
on the single-segment path.  A hit that is a module or a field value runs
into `todo!()` (an abnormal stop, recorded in `panicked`); a miss reports
`NotFound` (in addition to the diagnostics `find_value` already reported)
and produces an error node. -/
def resolveVariableGlobal (nss : List Namespace) (current : ModuleId)
    (s : VSym) (_sp : Span) (ctx : Ctx) : AExpr × Ctx :=
  match findValue nss current [s] with
  | (some it, es) =>
    let ctx' := { ctx with errs := ctx.errs ++ es }
    match it.item with
    | .module _ => (.error, { ctx' with panicked := true })
    | .field _ => (.error, { ctx' with panicked := true })
    | .function q => (.function q, ctx')
    | .effect q => (.effect q, ctx')
    | .constructor q => (.constructor q, ctx')
  | (none, es) =>
    (.error, { ctx with errs := ctx.errs ++ es ++ [.notFound [s]] })

/-- `ExprKind::resolve` of `lib.rs` on the embedded expression fragment.
The `Variable` branch first consults the Variable capability of the scope
stack and only falls back to the global lookup when the symbol is not
lexically bound.  The `If` branch is `IfExpr::resolve`: it desugars to a
two-arm `when` over the `Bool.True` / `Bool.False` constructors (resolved
like ordinary global references, before the subexpressions) and then
resolves the condition and both branches. -/
def resolveLExpr (nss : List Namespace) (current : ModuleId) :
    LExpr → Ctx → AExpr × Ctx
  | .variable s sp, ctx =>
    if kaleidoContains ctx.varScopes s then (.variable s, ctx)
    else resolveVariableGlobal nss current s sp ctx
  | .literal n, ctx => (.literal n, ctx)
  | .ifE cond thenB elseB sp, ctx =>
    let (trueCons, e1) := findConstructorRaw nss current sp ["Bool", "True"]
    let (falseCons, e2) := findConstructorRaw nss current sp ["Bool", "False"]
    let ctx1 := { ctx with errs := ctx.errs ++ e1 ++ e2 }
    let (c', ctx2) := resolveLExpr nss current cond ctx1
    let (t', ctx3) := resolveLExpr nss current thenB ctx2
    let (e', ctx4) := resolveLExpr nss current elseB ctx3
    (.whenE c' [([trueCons], t', none), ([falseCons], e', none)], ctx4)

end Resolver

namespace Legacy

/-- The mutable state of the `resolve.rs` resolver relevant to patterns
(the `captured`, `scopes` and `reporter` fields of its `Context`).
`captured` is the capture-map stack with its top at the head. -/
structure LCtx where
  captured : List (List (VSym × Span))
  varScopes : List (List VSym)
  errs : List Resolver.ErrKind
  panicked : Bool
deriving Repr

/-- The initial state of one legacy resolution run. -/
def LCtx.initial : LCtx :=
  { captured := [], varScopes := [], errs := [], panicked := false }

/-- The abstract pattern fragment consumed by the `resolve.rs` resolver
(`abstract::PatternKind`), restricted to the binding-relevant constructors:
wildcards, bound variables (`Lower`) and or-patterns. -/
inductive RPat where
  | wildcard
  | lower (s : VSym) (r : Span)
  | orP (l r : RPat)
deriving Repr

/-- The resolved output pattern fragment (`resolved::PatternKind`). -/
inductive RPatOut where
  | wildcard
  | lower (s : VSym) (r : Span)
  | orP (l r : RPatOut)
deriving Repr

mutual

/-- `PatternKind::resolve` of `resolve.rs`: if no capture map is open the
call owns the scope transaction (pushing a fresh map on entry, and on exit
popping it and promoting the captured symbols into the Variable capability
of the scope stack).  A `Lower` pattern whose symbol is present in any open
capture map reports `VariableAlreadyCaptured` and is not inserted;
otherwise it is inserted into the top map.  Either way the output node is
the `Lower` pattern itself. -/
def resolveRPat (p : RPat) (ctx : LCtx) : RPatOut × LCtx :=
  let notCapturing := ctx.captured.isEmpty
  let ctx0 := if notCapturing then { ctx with captured := [[]] } else ctx
  let (out, ctx1) := resolveRPatCore p ctx0
  if notCapturing then
    match ctx1.captured with
    | [] => (out, { ctx1 with panicked := true })
    | m :: rest =>
      (out, { ctx1 with
              captured := rest
              varScopes := m.foldl (fun fs q => Resolver.kaleidoAdd fs q.1)
                ctx1.varScopes })
  else (out, ctx1)
termination_by (sizeOf p, 1)

/-- The case analysis inside the legacy `PatternKind::resolve`, including
`PatOr::resolve`: each branch of an or-pattern is resolved in its own fresh
capture map; afterwards only the difference of the right key set against
the left key set is reported as `VariableNotBoundOnBothSides` (the source
binds this one-sided `difference` to a variable named
`symmetric_difference`), and the left map is merged into the enclosing
capture map. -/
def resolveRPatCore (p : RPat) (ctx : LCtx) : RPatOut × LCtx :=
  match p with
  | .wildcard => (.wildcard, ctx)
  | .lower s r =>
    if ctx.captured.any (fun m => (alistGet m s).isSome) then
      (.lower s r, { ctx with
        errs := ctx.errs ++ [.variableAlreadyCaptured s] })
    else
      match ctx.captured with
      | [] => (.lower s r, { ctx with panicked := true })
      | m :: rest =>
        (.lower s r, { ctx with captured := alistInsert m s r :: rest })
  | .orP l r =>
    let ctx1 := { ctx with captured := [] :: ctx.captured }
    let (lo, ctx2) := resolveRPat l ctx1
    match ctx2.captured with
    | [] => (.orP lo lo, { ctx2 with panicked := true })
    | leftPop :: rest2 =>
      let ctx3 := { ctx2 with captured := [] :: rest2 }
      let (ro, ctx4) := resolveRPat r ctx3
      match ctx4.captured with
      | [] => (.orP lo ro, { ctx4 with panicked := true })
      | rightPop :: rest4 =>
        let diff := Resolver.listDiff (alistKeys rightPop) (alistKeys leftPop)
        let reports :=
          diff.map (fun k => Resolver.ErrKind.variableNotBoundOnBothSides k)
        match rest4 with
        | [] => (.orP lo ro, { ctx4 with
                               captured := []
                               panicked := true
                               errs := ctx4.errs ++ reports })
        | top :: below =>
          (.orP lo ro, { ctx4 with
            captured := alistExtend top leftPop :: below
            errs := ctx4.errs ++ reports })
termination_by (sizeOf p, 0)

end

/-- Modelled from the spec: the module tree is a trie keyed by path
segments, each node naming a namespace id; `find` walks a path to the id
at its end, and `find_sub_tree` locates the sub-trie at an alias target. -/
inductive MTree where
  | node (id : ModuleId) (children : List (VSym × MTree))

/-- `ModuleTree::find_sub_tree`: walk a path and return the sub-trie it
denotes. -/
def MTree.findSub : List VSym → MTree → Option MTree
  | [], t => some t
  | s :: rest, .node _ cs =>
    match alistGet cs s with
    | some t' => MTree.findSub rest t'
    | none => none

/-- `ModuleTree::find`: the namespace id at the end of a path. -/
def MTree.findId (t : MTree) (p : List VSym) : Option ModuleId :=
  (MTree.findSub p t).map (fun u => match u with | .node i _ => i)

/-- The declaration set of one namespace (`declare.rs` is absent from the
snapshot; modelled from the spec's Namespace Registry as the set of
declarations, queried with `contains` by `resolve.rs`). -/
structure Definition where
  decls : List DataType

/-- The pre-built module structure (`declare::Modules`): the module tree
plus one declaration record per namespace id. -/
structure Modules where
  tree : MTree
  definitions : List Definition

/-- `self.modules.definitions[i]`. -/
def Modules.defsAt (ms : Modules) (i : ModuleId) : Definition :=
  ms.definitions.getD i ⟨[]⟩

/-- One entry of the import map (`ambiguity::ImportMap`; the file is absent
from the snapshot, so the entry is modelled from the spec: the canonical
candidate plus an ambiguity flag that is set when two distinct `use`
imports bind the same short name, queried by `is_ambiguous` and
`get_canonical` in `resolve.rs`). -/
structure ImportEntry where
  canonical : RQualified
  ambiguous : Bool

/-- Lookup in the import map (keys are `DataType` values). -/
def importGet (m : List (DataType × ImportEntry)) (k : DataType) :
    Option ImportEntry :=
  match m with
  | [] => none
  | (k', v) :: rest => if k' = k then some v else importGet rest k

/-- A possibly-qualified name of the abstract tree
(`abstract::Qualified`): the leading module segments, the final symbol
with its own range, and the range of the whole path.  `to_path` is the
segment list. -/
structure QPath where
  segments : List VSym
  lastSym : VSym
  lastRange : Span
  range : Span

/-- The sub-trie and remaining path against which a non-empty path is
resolved by `canonicalize`: when the first segment is a recorded alias
whose target names a sub-trie, that sub-trie and the remaining segments;
otherwise the full tree and the whole path. -/
def canonicalizeTarget (uses : List (VSym × List VSym)) (tree : MTree)
    (p0 : VSym) (prest : List VSym) : MTree × List VSym :=
  match alistGet uses p0 with
  | some fst =>
    match MTree.findSub fst tree with
    | some res => (res, prest)
    | none => (tree, p0 :: prest)
  | none => (tree, p0 :: prest)

/-- `Context::canonicalize` of `resolve.rs`: on a non-empty path, if the
first segment is a recorded `use` alias whose target names a sub-trie, the
remaining segments are resolved against that sub-trie, otherwise the whole
path is resolved against the full tree; a hit yields its namespace id, a
miss reports `CannotFindModule`.  An empty path yields no namespace (then
the import map will be consulted instead). -/
def canonicalize (uses : List (VSym × List VSym)) (tree : MTree)
    (_range : Span) (path : List VSym) :
    Except Unit (Option ModuleId) × List Resolver.ErrKind :=
  match path with
  | [] => (.ok none, [])
  | p0 :: prest =>
    let sr := canonicalizeTarget uses tree p0 prest
    match MTree.findId sr.1 sr.2 with
    | some res => (.ok (some res), [])
    | none => (.error (), [.cannotFindModule (p0 :: prest)])

/-- `Context::find_import` of `resolve.rs`: consult the import map for the
bare name.  An ambiguous entry reports `AmbiguousImport` and produces an
error reference; a candidate that is itself an error marker is returned as
is; a candidate whose declaring namespace no longer contains the
declaration produces an error reference, with `CannotFind` reported only
when `report` is set; otherwise the qualified reference is returned at the
reference's own range.  A name absent from the import map falls back to
the current namespace's own declarations. -/
def findImport (imports : List (DataType × ImportEntry)) (ms : Modules)
    (nsId : ModuleId) (range : Span) (name : DataType) (report : Bool) :
    RQualified × List Resolver.ErrKind :=
  match importGet imports name with
  | some res =>
    if res.ambiguous then
      (.error res.canonical.getRange, [.ambiguousImport name])
    else
      match res.canonical with
      | .error r => (.error r, [])
      | .resolved canonical last _ =>
        if (ms.defsAt canonical).decls.contains name then
          (.resolved canonical last range, [])
        else
          (.error range, if report then [.cannotFind name] else [])
  | none =>
    if (ms.defsAt nsId).decls.contains name then
      (.resolved nsId name.symbol range, [])
    else
      (.error range, if report then [.cannotFind name] else [])

/-- `Context::find_on_namespace` of `resolve.rs`: the declaration must be
present in the target namespace's declaration set. -/
def findOnNamespace (ms : Modules) (range : Span) (name : DataType)
    (nsId : ModuleId) : RQualified :=
  if (ms.defsAt nsId).decls.contains name then
    .resolved nsId name.symbol range
  else
    .error range

/-- `Context::find` of `resolve.rs`: canonicalize the path through the
alias table first; a canonicalization failure yields an error reference; a
direct hit in the module tree resolves within that namespace (the import
map is not consulted); an empty path consults the import map for the bare
name. -/
def find (uses : List (VSym × List VSym)) (ms : Modules)
    (imports : List (DataType × ImportEntry)) (nsId : ModuleId)
    (q : QPath) (report : Bool) (typ : VSym → DataType) :
    RQualified × List Resolver.ErrKind :=
  let c := canonicalize uses ms.tree q.range q.segments
  let data := typ q.lastSym
  match c.1 with
  | .error () => (.error q.range, c.2)
  | .ok (some id) => (findOnNamespace ms q.lastRange data id, c.2)
  | .ok none =>
    let r := findImport imports ms nsId q.lastRange data report
    (r.1, c.2 ++ r.2)

/-- The abstract input expression fragment consumed by the legacy
resolver (`abstract::ExprKind`): possibly-qualified identifiers, literals
and `if` expressions. -/
inductive AExprL where
  | ident (q : QPath)
  | literal (n : Nat)
  | ifE (cond thenB elseB : AExprL)

/-- The resolved output expression fragment of the legacy resolver
(`resolved::ExprKind`); note that the output tree keeps a dedicated `If`
variant alongside `When`. -/
inductive RExprOut where
  | variable (s : VSym) (r : Span)
  | function (q : RQualified)
  | constructor (q : RQualified)
  | literal (n : Nat)
  | ifE (cond thenB elseB : RExprOut)
  | whenE (scrutinee : RExprOut) (arms : List (RPatOut × RExprOut))

/-- Whether a resolved legacy expression is a `When` node. -/
def RExprOut.isWhen : RExprOut → Bool
  | .whenE _ _ => true
  | _ => false

/-- `ExprKind::resolve` of `resolve.rs` on the embedded fragment.  An
identifier that is lexically bound in the Variable capability and carries
no module segments becomes a local variable; otherwise a `Let` lookup is
probed without reporting, and on failure a `Constructor` lookup reports.
`IfExpr::resolve` resolves the three subexpressions and rebuilds an `If`
node. -/
def resolveLegacyExpr (uses : List (VSym × List VSym)) (ms : Modules)
    (imports : List (DataType × ImportEntry)) (nsId : ModuleId) :
    AExprL → LCtx → RExprOut × LCtx
  | .ident q, ctx =>
    if Resolver.kaleidoContains ctx.varScopes q.lastSym ∧ q.segments.isEmpty
    then
      (.variable q.lastSym q.lastRange, ctx)
    else
      let r1 := find uses ms imports nsId q false .dtLet
      match r1.1 with
      | .resolved c l r =>
        (.function (.resolved c l r), { ctx with errs := ctx.errs ++ r1.2 })
      | .error _ =>
        let r2 := find uses ms imports nsId q true .dtConstructor
        (.constructor r2.1, { ctx with errs := ctx.errs ++ r1.2 ++ r2.2 })
  | .literal n, ctx => (.literal n, ctx)
  | .ifE cond thenB elseB, ctx =>
    let (c', ctx1) := resolveLegacyExpr uses ms imports nsId cond ctx
    let (t', ctx2) := resolveLegacyExpr uses ms imports nsId thenB ctx1
    let (e', ctx3) := resolveLegacyExpr uses ms imports nsId elseB ctx2
    (.ifE c' t' e', ctx3)

end Legacy

/-- Registry with two public constructors `A` and `B` in the root
namespace, for or-pattern scenarios. -/
def consRegistry : List Resolver.Namespace :=
  [{ values := [("A", ⟨.constructor ⟨0, "A"⟩, .publicVis⟩),
                ("B", ⟨.constructor ⟨0, "B"⟩, .publicVis⟩)],
     types := [], modules := [], passThrough := false }]

/-- Registry in which the root namespace's `values` map sends `m` to a
`Module` entry (a module alias re-exported as a value). -/
def moduleValueRegistry : List Resolver.Namespace :=
  [{ values := [("m", ⟨.module 1, .publicVis⟩)],
     types := [], modules := [("M", ⟨1, .publicVis⟩)], passThrough := false },
   { values := [], types := [], modules := [], passThrough := false }]

/-- The trivial legacy module structure: a root namespace with no
declarations. -/
def emptyModules : Legacy.Modules :=
  { tree := .node 0 [], definitions := [⟨[]⟩] }

namespace Resolver

mutual

/-- The binding map a pattern adds to a capture map `m`, read off the
resolver: a bound variable inserts itself; an or-pattern merges in the
binding map of its left branch (computed in a fresh map); a constructor
application whose head resolves to a constructor adds its arguments'
bindings in order, and adds nothing otherwise (its arguments are not
resolved).  `resolveCPat_state` proves that this is exactly how the
resolver transforms the top capture map. -/
def capsAux (nss : List Namespace) (current : ModuleId) :
    CPat → List (VSym × Span) → List (VSym × Span)
  | .variable s sp, m => alistInsert m s sp
  | .wildcard, m => m
  | .orP l _r, m => alistExtend m (capsAux nss current l [])
  | .application f _sp args, m =>
    match findValue nss current f with
    | (some ⟨.constructor _, _⟩, _) => capsListAux nss current args m
    | _ => m
termination_by p => (sizeOf p, 0)

/-- `capsAux` over a list of sub-patterns, left to right. -/
def capsListAux (nss : List Namespace) (current : ModuleId) :
    List CPat → List (VSym × Span) → List (VSym × Span)
  | [], m => m
  | p :: rest, m => capsListAux nss current rest (capsAux nss current p m)
termination_by ps => (sizeOf ps, 1)

end

/-- How one pattern-resolution step is allowed to change the context while
a capture map is open: the top capture map is replaced by `top`, the rest
of the capture stack, the scope stack and the panic flag are untouched, and
diagnostics are only appended. -/
def CtxEvolves (ctx ctx' : Ctx) (top : List (VSym × Span))
    (rest : List (List (VSym × Span))) : Prop :=
  ctx'.patterns = top :: rest ∧ ctx'.varScopes = ctx.varScopes ∧
  ctx'.panicked = ctx.panicked ∧ ∃ es, ctx'.errs = ctx.errs ++ es

end Resolver

/-- Registry declaring a global function `x` in the root namespace. -/
def globalXRegistry : List Resolver.Namespace :=
  [{ values := [("x", ⟨.function ⟨0, "x"⟩, .publicVis⟩)],
     types := [], modules := [], passThrough := false }]

/-- Module structure for the `find` scenarios: the root namespace `0` has
one submodule `M` (namespace `1`), which declares the value `f`. -/
def findModulesW : Legacy.Modules :=
  { tree := .node 0 [("M", .node 1 [])],
    definitions := [⟨[]⟩, ⟨[.dtLet "f"]⟩] }

/-- Import map binding the short name `g` ambiguously. -/
def findImportsW : List (DataType × Legacy.ImportEntry) :=
  [(.dtLet "g", ⟨.resolved 0 "g" (9, 9), true⟩)]

@[simp] theorem alistExtend_nil {α : Type} (dst : List (VSym × α)) :
    alistExtend dst [] = dst := rfl

theorem alistExtend_cons {α : Type} (dst : List (VSym × α)) (k : VSym)
    (v : α) (src : List (VSym × α)) :
    alistExtend dst ((k, v) :: src) = alistExtend (alistInsert dst k v) src := rfl

/-- C9: equality and hashing of `Qualified` references ignore the range
field: two `Resolved` values compare equal exactly when their canonical
namespace ids and final symbols match, whatever their ranges are, and any
two values that compare equal write identical streams to the hasher. -/
theorem qualified_eq_hash_ignore_range :
    (∀ c₁ l₁ r₁ c₂ l₂ r₂,
      Legacy.RQualified.beq (.resolved c₁ l₁ r₁) (.resolved c₂ l₂ r₂) = true ↔
        c₁ = c₂ ∧ l₁ = l₂) ∧
    (∀ a b : Legacy.RQualified,
      Legacy.RQualified.beq a b = true →
        Legacy.RQualified.hashWrites a = Legacy.RQualified.hashWrites b) := by
  constructor
  · intro c₁ l₁ r₁ c₂ l₂ r₂
    simp [Legacy.RQualified.beq]
  · intro a b h
    cases a with
    | resolved c₁ l₁ r₁ =>
      cases b with
      | resolved c₂ l₂ r₂ =>
        simp only [Legacy.RQualified.beq, decide_eq_true_eq] at h
        simp [Legacy.RQualified.hashWrites, h.1, h.2]
      | error r => simp [Legacy.RQualified.beq] at h
    | error r => simp [Legacy.RQualified.beq] at h

/-- Concrete instance of `qualified_eq_hash_ignore_range`: two resolved
references with the same canonical id and symbol but different ranges are
equal, and hash to the same stream. -/
theorem qualified_eq_hash_ignore_range_witness :
    Legacy.RQualified.beq (.resolved 3 "f" (0, 4)) (.resolved 3 "f" (9, 13)) =
      true ∧
    Legacy.RQualified.hashWrites (.resolved 3 "f" (0, 4)) =
      Legacy.RQualified.hashWrites (.resolved 3 "f" (9, 13)) := by
  refine ⟨by decide, ?_⟩
  exact (qualified_eq_hash_ignore_range).2 _ _ (by decide)

/-- C10: equality on `Qualified` is not reflexive on error markers: an
`Error` value is unequal to everything, itself included; hashing an `Error`
writes nothing to the hasher (so all error markers hash alike); and only two
`Resolved` values can ever compare equal. -/
theorem qualified_error_never_equal :
    (∀ (r : Span) (q : Legacy.RQualified),
      Legacy.RQualified.beq (.error r) q = false ∧
      Legacy.RQualified.beq q (.error r) = false) ∧
    (∀ r : Span, Legacy.RQualified.hashWrites (.error r) = []) ∧
    (∀ a b : Legacy.RQualified, Legacy.RQualified.beq a b = true →
      ∃ c l r₁ r₂, a = .resolved c l r₁ ∧ b = .resolved c l r₂) := by
  refine ⟨?_, ?_, ?_⟩
  · intro r q
    constructor
    · cases q <;> rfl
    · cases q <;> rfl
  · intro r
    rfl
  · intro a b h
    cases a with
    | resolved c₁ l₁ r₁ =>
      cases b with
      | resolved c₂ l₂ r₂ =>
        simp only [Legacy.RQualified.beq, decide_eq_true_eq] at h
        exact ⟨c₁, l₁, r₁, r₂, rfl, by rw [h.1, h.2]⟩
      | error r => simp [Legacy.RQualified.beq] at h
    | error r => simp [Legacy.RQualified.beq] at h

/-- Concrete instance of `qualified_error_never_equal`: the error marker at
range `(2, 5)` is unequal to itself, and hashes to the empty stream. -/
theorem qualified_error_never_equal_witness :
    Legacy.RQualified.beq (.error (2, 5)) (.error (2, 5)) = false ∧
    Legacy.RQualified.hashWrites (.error (2, 5)) = [] := by
  exact ⟨((qualified_error_never_equal).1 (2, 5) (.error (2, 5))).1,
    (qualified_error_never_equal).2.1 (2, 5)⟩

namespace Resolver

theorem walkModules_none_iff_hitsPrivate (nss : List Namespace)
    (current : ModuleId) :
    ∀ (name : List VSym) (mid : ModuleId),
      walkModules nss current mid name = none ↔
        hitsPrivate nss current mid name = true := by
  intro name
  induction name with
  | nil => intro mid; simp [walkModules, hitsPrivate]
  | cons head tail ih =>
    intro mid
    simp only [walkModules, hitsPrivate]
    cases halist : alistGet (getNs nss mid).modules head with
    | none => simp
    | some it =>
      by_cases hp : it.visibility = .privateVis ∧ current ≠ mid
      · simp [hp]
      · by_cases hl : tail.length = 1
        · simp [hp, hl]
        · simp [hp, hl, ih it.item]

end Resolver

/-- C3: privacy enforcement in `Context::find_val`.  For every qualified
lookup: (1) if the module walk reaches an intermediate path segment that is
`Private` while the current module differs from the module holding that
entry, the lookup fails at once with `PrivateDefinition` and returns no
item; (2) if the final item found is `Private`, the current module differs
from the namespace declaring it, and that namespace is not `pass_through`,
the lookup fails with `PrivateDefinition` and returns no item; (3) the same
reference made from within the declaring module succeeds. -/
theorem find_val_privacy {α : Type} (nss : List Resolver.Namespace)
    (current mid : ModuleId) (name : List VSym)
    (proj : Resolver.Namespace → List (VSym × Resolver.Item α)) :
    (name.length > 1 →
      Resolver.hitsPrivate nss current mid name = true →
      Resolver.findVal nss current mid name proj =
        (none, [.privateDefinition])) ∧
    (∀ (mid' : ModuleId) (last : VSym) (it : Resolver.Item α),
      Resolver.findValStart nss current mid name = some (mid', [last]) →
      alistGet (proj (Resolver.getNs nss mid')) last = some it →
      it.visibility = .privateVis → mid' ≠ current →
      (Resolver.getNs nss mid').passThrough = false →
      Resolver.findVal nss current mid name proj =
        (none, [.privateDefinition])) ∧
    (∀ (mid' : ModuleId) (last : VSym) (it : Resolver.Item α),
      Resolver.findValStart nss current mid name = some (mid', [last]) →
      alistGet (proj (Resolver.getNs nss mid')) last = some it →
      mid' = current →
      Resolver.findVal nss current mid name proj = (some it, [])) := by
  refine ⟨?_, ?_, ?_⟩
  · intro hlen hpriv
    have hwalk : Resolver.walkModules nss current mid name = none :=
      (Resolver.walkModules_none_iff_hitsPrivate nss current name mid).2 hpriv
    unfold Resolver.findVal Resolver.findValStart
    simp [hlen, hwalk]
  · intro mid' last it hstart hget hvis hne hpass
    unfold Resolver.findVal
    rw [hstart]
    simp [hget, hvis, hne, hpass]
  · intro mid' last it hstart hget heq
    subst heq
    unfold Resolver.findVal
    rw [hstart]
    simp [hget]

/-- Concrete instance of `find_val_privacy`, following the spec's scenario:
the root namespace `0` holds modules `A` (namespace `1`) and `B`
(namespace `2`); `A` privately declares the value `secret`.  Looking up
`A.secret` while resolving module `B` fails with `PrivateDefinition` and
returns no item; the same lookup while resolving module `A` succeeds.  In a
second registry where the module entry `A` itself is private in the root,
the walk from module `B` stops at that intermediate segment with a single
`PrivateDefinition`. -/
theorem find_val_privacy_witness :
    Resolver.findValue privacyRegistry 2 ["A", "secret"] =
      (none, [.privateDefinition]) ∧
    Resolver.findValue privacyRegistry 1 ["A", "secret"] =
      (some ⟨.function ⟨1, "secret"⟩, .privateVis⟩, []) ∧
    Resolver.findValue privacyRegistryHiddenModule 2 ["A", "secret"] =
      (none, [.privateDefinition]) := by
  refine ⟨?_, ?_, ?_⟩
  · exact (find_val_privacy privacyRegistry 2 0 ["A", "secret"]
      (·.values)).2.1 1 "secret"
      ⟨.function ⟨1, "secret"⟩, .privateVis⟩ (by decide) (by decide)
      (by decide) (by decide) (by decide)
  · exact (find_val_privacy privacyRegistry 1 0 ["A", "secret"]
      (·.values)).2.2 1 "secret"
      ⟨.function ⟨1, "secret"⟩, .privateVis⟩ (by decide) (by decide) rfl
  · exact (find_val_privacy privacyRegistryHiddenModule 2 0 ["A", "secret"]
      (·.values)).1 (by decide) (by decide)

/-- C1 (failing evaluation): on an or-pattern whose left branch binds only
`x` and whose right branch binds only `y`, the legacy resolver in
`resolve.rs` reports `VariableNotBoundOnBothSides` only for `y` — it
computes just the right-minus-left difference, although both `x` and `y`
lie in the symmetric difference of the binding sets.  The resolver in
`lib.rs`, on the very same shape (`A(x) | B(y)`), reports both `x` and
`y`, as the claim states. -/
theorem or_pattern_one_sided_difference :
    (Legacy.resolveRPat (.orP (.lower "x" (0, 1)) (.lower "y" (4, 5)))
        Legacy.LCtx.initial).2.errs =
      [.variableNotBoundOnBothSides "y"] ∧
    (Resolver.resolveCPat consRegistry 0
        (.orP (.application ["A"] (0, 4) [.variable "x" (2, 3)])
              (.application ["B"] (7, 11) [.variable "y" (9, 10)]))
        Resolver.Ctx.initial).2.errs =
      [.variableNotBoundOnBothSides "x", .variableNotBoundOnBothSides "y"] := by
  constructor
  · simp [Legacy.resolveRPat, Legacy.resolveRPatCore, Legacy.LCtx.initial,
      alistGet, alistKeys, alistInsert, alistExtend, Resolver.listDiff]
  · simp [Resolver.resolveCPat, Resolver.resolveCPatCore,
      Resolver.resolveCPatList, Resolver.Ctx.initial, Resolver.scopePatternEnter,
      Resolver.scopePatternExit, Resolver.addPattern, Resolver.findValue,
      Resolver.findVal, Resolver.findValStart, Resolver.getNs, consRegistry,
      Resolver.symmDiffKeys, Resolver.listDiff, alistGet, alistKeys,
      alistInsert, alistExtend, Resolver.kaleidoAdd]

/-- C2 (failing evaluation): resolving the bare variable expression `m`
when no lexical binding of `m` is in scope and the global lookup yields a
`Module` value runs into the `todo!()` arm of the `Variable` branch of
`ExprKind::resolve` in `lib.rs`: the run stops abnormally (no diagnostic
is appended and no error marker is produced). -/
theorem variable_module_value_panics :
    (Resolver.resolveLExpr moduleValueRegistry 0 (.variable "m" (0, 1))
        Resolver.Ctx.initial).2.panicked = true ∧
    (Resolver.resolveLExpr moduleValueRegistry 0 (.variable "m" (0, 1))
        Resolver.Ctx.initial).2.errs = [] := by
  constructor
  · rfl
  · rfl

/-- C7 (failing evaluation): the legacy resolver in `resolve.rs` resolves
`if 0 then 1 else 2` to an `If` node — not to a two-arm `when`
expression. -/
theorem legacy_if_keeps_if_node :
    (Legacy.resolveLegacyExpr [] emptyModules [] 0
        (.ifE (.literal 0) (.literal 1) (.literal 2))
        Legacy.LCtx.initial).1 =
      Legacy.RExprOut.ifE (.literal 0) (.literal 1) (.literal 2) ∧
    Legacy.RExprOut.isWhen
      (Legacy.resolveLegacyExpr [] emptyModules [] 0
        (.ifE (.literal 0) (.literal 1) (.literal 2))
        Legacy.LCtx.initial).1 = false := by
  constructor
  · rfl
  · rfl

/-- C7 (amended): in the `lib.rs` resolver, every if-expression desugars
to a two-arm `when` whose arm patterns are the results of resolving the
`Bool.True` and `Bool.False` constructors like ordinary global references
(their diagnostics reported first), and whose scrutinee and arm bodies are
the full resolutions of the condition, then-branch and else-branch; when
`Bool.True` is not found, the lookup's diagnostics surface, the first
arm's pattern is an error marker, and the three subexpressions are still
resolved exactly as before. -/
theorem if_desugars_to_when (nss : List Resolver.Namespace)
    (current : ModuleId) (cond thenB elseB : Resolver.LExpr) (sp : Span)
    (ctx : Resolver.Ctx) :
    (Resolver.resolveLExpr nss current (.ifE cond thenB elseB sp) ctx =
      (let trueCons := Resolver.findConstructorRaw nss current sp
         ["Bool", "True"]
       let falseCons := Resolver.findConstructorRaw nss current sp
         ["Bool", "False"]
       let ctx1 := { ctx with
         errs := ctx.errs ++ trueCons.2 ++ falseCons.2 }
       let c := Resolver.resolveLExpr nss current cond ctx1
       let t := Resolver.resolveLExpr nss current thenB c.2
       let e := Resolver.resolveLExpr nss current elseB t.2
       (.whenE c.1 [([trueCons.1], t.1, none), ([falseCons.1], e.1, none)],
        e.2))) ∧
    ((Resolver.findValue nss current ["Bool", "True"]).1 = none →
      (Resolver.findConstructorRaw nss current sp ["Bool", "True"]).1 =
        .error ∧
      (Resolver.findConstructorRaw nss current sp ["Bool", "True"]).2 =
        (Resolver.findValue nss current ["Bool", "True"]).2) := by
  constructor
  · rfl
  · intro h
    unfold Resolver.findConstructorRaw
    rcases hfv : Resolver.findValue nss current ["Bool", "True"] with ⟨v, es⟩
    rw [hfv] at h
    simp only at h
    subst h
    simp

namespace Resolver

theorem scopePatternEnter_open (ctx : Ctx) (m : List (VSym × Span))
    (rest : List (List (VSym × Span))) (h : ctx.patterns = m :: rest) :
    scopePatternEnter ctx = (false, ctx) := by
  simp [scopePatternEnter, h]

theorem resolveCPat_open (nss : List Namespace) (current : ModuleId)
    (p : CPat) (ctx : Ctx) (m : List (VSym × Span))
    (rest : List (List (VSym × Span))) (h : ctx.patterns = m :: rest) :
    resolveCPat nss current p ctx = resolveCPatCore nss current p ctx := by
  rw [resolveCPat, scopePatternEnter_open ctx m rest h]
  rcases hc : resolveCPatCore nss current p ctx with ⟨o, c⟩
  dsimp only
  rw [hc]
  simp [scopePatternExit]

theorem resolveCPatCore_variable_eq (nss : List Namespace)
    (current : ModuleId) (s : VSym) (sp : Span) (ctx : Ctx) (ok : Bool)
    (ctx1 : Ctx) (h : addPattern ctx s sp = (ok, ctx1)) :
    resolveCPatCore nss current (.variable s sp) ctx =
      (if ok then .variable s else .error, ctx1) := by
  rw [resolveCPatCore, h]

theorem resolveCPatCore_orP_eq (nss : List Namespace) (current : ModuleId)
    (l r : CPat) (ctx : Ctx) (lo : APat) (ctx2 : Ctx)
    (leftPop : List (VSym × Span)) (rest2 : List (List (VSym × Span)))
    (ro : APat) (ctx4 : Ctx) (rightPop : List (VSym × Span))
    (top : List (VSym × Span)) (below : List (List (VSym × Span)))
    (hL : resolveCPat nss current l
      { ctx with patterns := [] :: ctx.patterns } = (lo, ctx2))
    (hMR : ctx2.patterns = leftPop :: rest2)
    (hR : resolveCPat nss current r
      { ctx2 with patterns := [] :: rest2 } = (ro, ctx4))
    (hPP : ctx4.patterns = rightPop :: top :: below) :
    resolveCPatCore nss current (.orP l r) ctx =
      (if (symmDiffKeys leftPop rightPop).isEmpty then .orP lo ro
       else .error,
       { ctx4 with
         patterns := alistExtend top leftPop :: below
         errs := ctx4.errs ++ (symmDiffKeys leftPop rightPop).map
           (fun k => ErrKind.variableNotBoundOnBothSides k) }) := by
  rw [resolveCPatCore]
  rw [hL]
  simp only [hMR]
  rw [hR]
  simp only [hPP]
  split <;> rfl

theorem resolveCPatCore_appCons_eq (nss : List Namespace)
    (current : ModuleId) (f : List VSym) (sp : Span) (args : List CPat)
    (ctx : Ctx) (q : AQualified) (vis : Visibility) (es : List ErrKind)
    (argsOut : List APat) (ctx2 : Ctx)
    (hfv : findValue nss current f =
      (some ⟨.constructor q, vis⟩, es))
    (hargs : resolveCPatList nss current args
      { ctx with errs := ctx.errs ++ es } = (argsOut, ctx2)) :
    resolveCPatCore nss current (.application f sp args) ctx =
      (.application q argsOut, ctx2) := by
  rw [resolveCPatCore, hfv]
  dsimp only
  rw [hargs]

theorem resolveCPatList_cons_eq (nss : List Namespace) (current : ModuleId)
    (p : CPat) (rest : List CPat) (ctx : Ctx) (o : APat) (ctx2 : Ctx)
    (h : resolveCPat nss current p ctx = (o, ctx2)) :
    resolveCPatList nss current (p :: rest) ctx =
      ((resolveCPatList nss current rest ctx2).1.cons o,
       (resolveCPatList nss current rest ctx2).2) := by
  rw [resolveCPatList, h]

theorem orPatCase (nss : List Namespace) (current : ModuleId) (ctx : Ctx)
    (l r : CPat) (out : APat) (ctx2 : Ctx)
    (hl : resolveCPat nss current l
      { ctx with patterns := [] :: ctx.patterns } = (out, ctx2))
    (m2 : List (VSym × Span)) (rest2 : List (List (VSym × Span)))
    (hmr : ctx2.patterns = m2 :: rest2)
    (out2 : APat) (ctx4 : Ctx)
    (hr : resolveCPat nss current r
      { ctx2 with patterns := [] :: rest2 } = (out2, ctx4))
    (mr m3 : List (VSym × Span)) (rest3 : List (List (VSym × Span)))
    (hpp : ctx4.patterns = mr :: m3 :: rest3)
    (ih1 : ∀ m rest,
      ({ ctx with patterns := [] :: ctx.patterns } : Ctx).patterns =
        m :: rest →
      CtxEvolves { ctx with patterns := [] :: ctx.patterns }
        (resolveCPat nss current l
          { ctx with patterns := [] :: ctx.patterns }).2
        (capsAux nss current l m) rest)
    (ih2 : ∀ m rest,
      ({ ctx2 with patterns := [] :: rest2 } : Ctx).patterns = m :: rest →
      CtxEvolves { ctx2 with patterns := [] :: rest2 }
        (resolveCPat nss current r
          { ctx2 with patterns := [] :: rest2 }).2
        (capsAux nss current r m) rest)
    (m : List (VSym × Span)) (rest : List (List (VSym × Span)))
    (h : ctx.patterns = m :: rest) :
    CtxEvolves ctx (resolveCPatCore nss current (.orP l r) ctx).2
      (capsAux nss current (.orP l r) m) rest := by
  have ihl := ih1 [] ctx.patterns rfl
  have e2 : (resolveCPat nss current l
      { ctx with patterns := [] :: ctx.patterns }).2 = ctx2 := by rw [hl]
  rw [e2] at ihl
  obtain ⟨hp2, hv2, hk2, es1, he2⟩ := ihl
  obtain ⟨hm2, hrest2⟩ := List.cons_eq_cons.mp (hmr.symm.trans hp2)
  have ihr := ih2 [] rest2 rfl
  have e4 : (resolveCPat nss current r
      { ctx2 with patterns := [] :: rest2 }).2 = ctx4 := by rw [hr]
  rw [e4] at ihr
  obtain ⟨hp4, hv4, hk4, es2, he4⟩ := ihr
  obtain ⟨hmr2, hrec⟩ := List.cons_eq_cons.mp (hpp.symm.trans hp4)
  obtain ⟨hm3, hrest3⟩ :=
    List.cons_eq_cons.mp (hrec.trans (hrest2.trans h))
  rw [resolveCPatCore_orP_eq nss current l r ctx out ctx2 m2 rest2 out2
    ctx4 mr m3 rest3 hl hmr hr hpp]
  refine ⟨?_, ?_, ?_, es1 ++ es2 ++ (symmDiffKeys m2 mr).map
    (fun k => ErrKind.variableNotBoundOnBothSides k), ?_⟩
  · show alistExtend m3 m2 :: rest3 = capsAux nss current (.orP l r) m :: rest
    rw [capsAux, hm3, hrest3, hm2]
  · show ctx4.varScopes = ctx.varScopes
    rw [hv4]
    exact hv2
  · show ctx4.panicked = ctx.panicked
    rw [hk4]
    exact hk2
  · show ctx4.errs ++ (symmDiffKeys m2 mr).map
      (fun k => ErrKind.variableNotBoundOnBothSides k) = _
    rw [he4]
    show ctx2.errs ++ es2 ++ _ = _
    rw [he2]
    show ctx.errs ++ es1 ++ es2 ++ _ = _
    simp [List.append_assoc]

theorem resolveCPat_state (nss : List Namespace) (current : ModuleId) :
    (∀ (p : CPat) (ctx : Ctx),
      ∀ m rest, ctx.patterns = m :: rest →
        CtxEvolves ctx (resolveCPat nss current p ctx).2
          (capsAux nss current p m) rest) ∧
    (∀ (p : CPat) (ctx : Ctx),
      ∀ m rest, ctx.patterns = m :: rest →
        CtxEvolves ctx (resolveCPatCore nss current p ctx).2
          (capsAux nss current p m) rest) ∧
    (∀ (ps : List CPat) (ctx : Ctx),
      ∀ m rest, ctx.patterns = m :: rest →
        CtxEvolves ctx (resolveCPatList nss current ps ctx).2
          (capsListAux nss current ps m) rest) := by
  refine Resolver.resolveCPat.mutual_induct nss current
    (fun p ctx => ∀ m rest, ctx.patterns = m :: rest →
      CtxEvolves ctx (resolveCPat nss current p ctx).2
        (capsAux nss current p m) rest)
    (fun p ctx => ∀ m rest, ctx.patterns = m :: rest →
      CtxEvolves ctx (resolveCPatCore nss current p ctx).2
        (capsAux nss current p m) rest)
    (fun ps ctx => ∀ m rest, ctx.patterns = m :: rest →
      CtxEvolves ctx (resolveCPatList nss current ps ctx).2
        (capsListAux nss current ps m) rest)
    ?_ ?_ ?_ ?_ ?_ ?_ ?_ ?_ ?_ ?_ ?_ ?_ ?_
  -- wrapper: `scope_pattern` is a no-op when a capture map is already open
  · intro p ctx owner ctx1 henter out ctx2 hcore ih m rest h
    rw [scopePatternEnter_open ctx m rest h] at henter
    injection henter with h1 h2
    subst h1
    subst h2
    rw [resolveCPat_open nss current p ctx m rest h]
    exact ih m rest h
  -- bound variable: `add_pattern` inserts into the top capture map
  · intro ctx s sp ok ctx1 haddp m rest h
    rw [resolveCPatCore_variable_eq nss current s sp ctx ok ctx1 haddp]
    simp only [addPattern, h] at haddp
    by_cases hmem : (alistGet m s).isSome
    · simp only [hmem, if_true] at haddp
      injection haddp with h1 h2
      subst h2
      refine ⟨by simp [capsAux], by simp, by simp,
        [.duplicatePattern s], by simp⟩
    · simp only [hmem, if_false] at haddp
      injection haddp with h1 h2
      subst h2
      refine ⟨by simp [capsAux], by simp, by simp, [], by simp⟩
  -- wildcard: no change
  · intro ctx m rest h
    rw [resolveCPatCore]
    exact ⟨by simp [capsAux, h], rfl, rfl, [], by simp⟩
  -- or-pattern, dead branch: the pop after the left branch cannot fail
  · intro ctx l r ctx1 out ctx2 hl hnil ih1 m rest h
    have ihl := ih1 [] ctx.patterns rfl
    have e2 : (resolveCPat nss current l ctx1).2 = ctx2 := by rw [hl]
    rw [e2] at ihl
    obtain ⟨hp, _, _, _⟩ := ihl
    rw [hnil] at hp
    exact absurd hp (by simp)
  -- or-pattern, dead branch: the pop after the right branch cannot fail
  · intro ctx l r ctx1 out ctx2 hl m2 rest2 hmr ctx3 out2 ctx4 hr hnil
      ih1 ih2 m rest h
    have ihr := ih2 [] rest2 rfl
    have e4 : (resolveCPat nss current r ctx3).2 = ctx4 := by rw [hr]
    rw [e4] at ihr
    obtain ⟨hp, _, _, _⟩ := ihr
    rw [hnil] at hp
    exact absurd hp (by simp)
  -- or-pattern, dead branch: the enclosing stack cannot be empty here
  · intro ctx l r ctx1 out ctx2 hl m2 rest2 hmr ctx3 out2 ctx4 hr mr
      hsingle ih1 ih2 m rest h
    have ihl := ih1 [] ctx.patterns rfl
    have e2 : (resolveCPat nss current l ctx1).2 = ctx2 := by rw [hl]
    rw [e2] at ihl
    have hrest2 : rest2 = ctx.patterns := by
      have h1 := ihl.1
      rw [hmr] at h1
      exact (List.cons_eq_cons.mp h1).2
    have ihr := ih2 [] rest2 rfl
    have e4 : (resolveCPat nss current r ctx3).2 = ctx4 := by rw [hr]
    rw [e4] at ihr
    have h2 := ihr.1
    rw [hsingle] at h2
    have : rest2 = [] := (List.cons_eq_cons.mp h2.symm).2
    rw [hrest2, h] at this
    exact absurd this (by simp)
  -- or-pattern, no binding-set mismatch
  · intro ctx l r ctx1 out ctx2 hl m2 rest2 hmr ctx3 out2 ctx4 hr mr diff
      m3 rest3 hde hpp ih1 ih2 m rest h
    exact orPatCase nss current ctx l r out ctx2 hl m2 rest2 hmr out2 ctx4
      hr mr m3 rest3 hpp ih1 ih2 m rest h
  -- or-pattern, binding-set mismatch reported, left set still merged
  · intro ctx l r ctx1 out ctx2 hl m2 rest2 hmr ctx3 out2 ctx4 hr mr diff
      m3 rest3 hde hpp ih1 ih2 m rest h
    exact orPatCase nss current ctx l r out ctx2 hl m2 rest2 hmr out2 ctx4
      hr mr m3 rest3 hpp ih1 ih2 m rest h
  -- constructor application: arguments resolved in the shared capture map
  · intro ctx f sp args q vis es hfv ctx1 argsOut ctx2 hargs ih3 m rest h
    have ihargs := ih3 m rest h
    have e2 : (resolveCPatList nss current args ctx1).2 = ctx2 := by
      rw [hargs]
    rw [e2] at ihargs
    obtain ⟨hp, hv, hk, es2, he⟩ := ihargs
    rw [resolveCPatCore_appCons_eq nss current f sp args ctx q vis es
      argsOut ctx2 hfv hargs]
    refine ⟨?_, ?_, ?_, es ++ es2, ?_⟩
    · show ctx2.patterns = capsAux nss current (.application f sp args)
        m :: rest
      rw [capsAux, hfv]
      exact hp
    · show ctx2.varScopes = ctx.varScopes
      rw [hv]
    · show ctx2.panicked = ctx.panicked
      rw [hk]
    · show ctx2.errs = ctx.errs ++ (es ++ es2)
      rw [he]
      show ctx.errs ++ es ++ es2 = _
      rw [List.append_assoc]
  -- application whose head is not a constructor: arguments not resolved
  · intro ctx f sp args val es hnc hfv m rest h
    rw [resolveCPatCore]
    rw [hfv]
    obtain ⟨item, vis⟩ := val
    have hcaps : capsAux nss current (.application f sp args) m = m := by
      rw [capsAux, hfv]
      cases item with
      | constructor q => exact absurd rfl (hnc q vis)
      | module im => rfl
      | field fq => rfl
      | function fq => rfl
      | effect eq => rfl
    cases item with
    | constructor q => exact absurd rfl (hnc q vis)
    | module im => exact ⟨by rw [hcaps]; exact h, rfl, rfl, es ++
        [.expectedConstructor], by simp⟩
    | field fq => exact ⟨by rw [hcaps]; exact h, rfl, rfl, es ++
        [.expectedConstructor], by simp⟩
    | function fq => exact ⟨by rw [hcaps]; exact h, rfl, rfl, es ++
        [.expectedConstructor], by simp⟩
    | effect eq => exact ⟨by rw [hcaps]; exact h, rfl, rfl, es ++
        [.expectedConstructor], by simp⟩
  -- application whose head is not found: arguments not resolved
  · intro ctx f sp args es hfv m rest h
    rw [resolveCPatCore]
    rw [hfv]
    refine ⟨?_, rfl, rfl, es, by simp⟩
    show ctx.patterns = capsAux nss current (.application f sp args)
      m :: rest
    rw [capsAux, hfv]
    exact h
  -- empty pattern list
  · intro ctx m rest h
    rw [resolveCPatList]
    exact ⟨by simp [capsListAux, h], rfl, rfl, [], by simp⟩
  -- pattern list: head then tail in the evolved context
  · intro ctx p rest out ctx2 hresp argsOut ctx3 hrest ih1 ih3 m rrest h
    have ihp := ih1 m rrest h
    have e2 : (resolveCPat nss current p ctx).2 = ctx2 := by rw [hresp]
    rw [e2] at ihp
    obtain ⟨hp1, hv1, hk1, es1, he1⟩ := ihp
    have ihrest := ih3 (capsAux nss current p m) rrest hp1
    have e3 : (resolveCPatList nss current rest ctx2).2 = ctx3 := by
      rw [hrest]
    rw [e3] at ihrest
    obtain ⟨hp2, hv2, hk2, es2, he2⟩ := ihrest
    rw [resolveCPatList_cons_eq nss current p rest ctx out ctx2 hresp]
    rw [e3]
    refine ⟨?_, ?_, ?_, es1 ++ es2, ?_⟩
    · rw [capsListAux]
      exact hp2
    · rw [hv2, hv1]
    · rw [hk2, hk1]
    · rw [he2, he1, List.append_assoc]

end Resolver

theorem alistGet_insert_self {α : Type} (m : List (VSym × α)) (k : VSym)
    (v : α) : alistGet (alistInsert m k v) k = some v := by
  induction m with
  | nil => simp [alistInsert, alistGet]
  | cons p rest ih =>
    obtain ⟨k', v'⟩ := p
    by_cases hk : k' = k
    · simp [alistInsert, alistGet, hk]
    · simp [alistInsert, alistGet, hk, ih]

/-- C4: after resolving any or-pattern with an enclosing capture map open,
the enclosing (top) capture map is extended with exactly the left branch's
captured bindings, the run is not aborted, and — whether or not the two
branches' binding sets agree — every symbol in their symmetric difference
has a `VariableNotBoundOnBothSides` diagnostic in the sink, so resolution
of the enclosing context proceeds with the left side's binding set. -/
theorem or_pattern_left_biased_merge (nss : List Resolver.Namespace)
    (current : ModuleId) (l r : Resolver.CPat) (ctx : Resolver.Ctx)
    (m : List (VSym × Span)) (rest : List (List (VSym × Span)))
    (h : ctx.patterns = m :: rest) :
    (Resolver.resolveCPat nss current (.orP l r) ctx).2.patterns =
      alistExtend m (Resolver.capsAux nss current l []) :: rest ∧
    (Resolver.resolveCPat nss current (.orP l r) ctx).2.panicked =
      ctx.panicked ∧
    ∀ k, k ∈ Resolver.symmDiffKeys (Resolver.capsAux nss current l [])
        (Resolver.capsAux nss current r []) →
      (Resolver.ErrKind.variableNotBoundOnBothSides k) ∈
        (Resolver.resolveCPat nss current (.orP l r) ctx).2.errs := by
  have hsz := (Resolver.resolveCPat_state nss current).1 (.orP l r) ctx m
    rest h
  refine ⟨?_, hsz.2.2.1, ?_⟩
  · have h1 := hsz.1
    rw [Resolver.capsAux] at h1
    exact h1
  · intro k hk
    rcases hl : Resolver.resolveCPat nss current l
      { ctx with patterns := [] :: ctx.patterns } with ⟨lo, ctx2⟩
    have hl2 := (Resolver.resolveCPat_state nss current).1 l
      { ctx with patterns := [] :: ctx.patterns } [] ctx.patterns rfl
    rw [hl] at hl2
    have hmr : ctx2.patterns =
        Resolver.capsAux nss current l [] :: ctx.patterns := hl2.1
    rcases hr : Resolver.resolveCPat nss current r
      { ctx2 with patterns := [] :: ctx.patterns } with ⟨ro, ctx4⟩
    have hr2 := (Resolver.resolveCPat_state nss current).1 r
      { ctx2 with patterns := [] :: ctx.patterns } [] ctx.patterns rfl
    rw [hr] at hr2
    have hpp : ctx4.patterns =
        Resolver.capsAux nss current r [] :: m :: rest := by
      rw [hr2.1, h]
    rw [Resolver.resolveCPat_open nss current (.orP l r) ctx m rest h]
    rw [Resolver.resolveCPatCore_orP_eq nss current l r ctx lo ctx2
      (Resolver.capsAux nss current l []) ctx.patterns ro ctx4
      (Resolver.capsAux nss current r []) m rest hl hmr hr hpp]
    have : (Resolver.ErrKind.variableNotBoundOnBothSides k) ∈
        (Resolver.symmDiffKeys (Resolver.capsAux nss current l [])
          (Resolver.capsAux nss current r [])).map
          (fun k => Resolver.ErrKind.variableNotBoundOnBothSides k) :=
      List.mem_map.mpr ⟨k, hk, rfl⟩
    exact List.mem_append_right _ this

/-- Concrete instance of `or_pattern_left_biased_merge`: for the or-pattern
`x | y` resolved with an empty enclosing capture map, the enclosing map
afterwards holds exactly the left binding `x`, the run did not abort, and
both `x` and `y` carry a binding-set diagnostic. -/
theorem or_pattern_left_biased_merge_witness :
    (Resolver.resolveCPat [] 0
      (.orP (.variable "x" (0, 1)) (.variable "y" (2, 3)))
      { patterns := [[]], varScopes := [], errs := [],
        panicked := false }).2.patterns = [[("x", (0, 1))]] ∧
    (Resolver.resolveCPat [] 0
      (.orP (.variable "x" (0, 1)) (.variable "y" (2, 3)))
      { patterns := [[]], varScopes := [], errs := [],
        panicked := false }).2.panicked = false ∧
    (Resolver.ErrKind.variableNotBoundOnBothSides "x") ∈
      (Resolver.resolveCPat [] 0
        (.orP (.variable "x" (0, 1)) (.variable "y" (2, 3)))
        { patterns := [[]], varScopes := [], errs := [],
          panicked := false }).2.errs ∧
    (Resolver.ErrKind.variableNotBoundOnBothSides "y") ∈
      (Resolver.resolveCPat [] 0
        (.orP (.variable "x" (0, 1)) (.variable "y" (2, 3)))
        { patterns := [[]], varScopes := [], errs := [],
          panicked := false }).2.errs := by
  have hthm := or_pattern_left_biased_merge [] 0
    (.variable "x" (0, 1)) (.variable "y" (2, 3))
    { patterns := [[]], varScopes := [], errs := [], panicked := false }
    [] [] rfl
  refine ⟨?_, hthm.2.1, ?_, ?_⟩
  · rw [hthm.1]
    simp [Resolver.capsAux, alistExtend, alistInsert]
  · exact hthm.2.2 "x" (by
      simp [Resolver.capsAux, Resolver.symmDiffKeys, Resolver.listDiff,
        alistKeys, alistInsert])
  · exact hthm.2.2 "y" (by
      simp [Resolver.capsAux, Resolver.symmDiffKeys, Resolver.listDiff,
        alistKeys, alistInsert])

theorem varlist_dup (nss : List Resolver.Namespace) (current : ModuleId)
    (x : VSym) :
    ∀ (sps : List Span) (ctx : Resolver.Ctx) (m : List (VSym × Span))
      (rest : List (List (VSym × Span))),
      ctx.patterns = m :: rest → (alistGet m x).isSome = true →
      (Resolver.resolveCPatList nss current
        (sps.map (fun sp => Resolver.CPat.variable x sp)) ctx).1 =
          List.replicate sps.length .error ∧
      (Resolver.resolveCPatList nss current
        (sps.map (fun sp => Resolver.CPat.variable x sp)) ctx).2.errs =
          ctx.errs ++ List.replicate sps.length (.duplicatePattern x) := by
  intro sps
  induction sps with
  | nil =>
    intro ctx m rest h hsome
    rw [List.map_nil, Resolver.resolveCPatList]
    simp
  | cons sp sps ih =>
    intro ctx m rest h hsome
    have haddp : Resolver.addPattern ctx x sp =
        (false, { ctx with
          patterns := alistInsert m x sp :: rest
          errs := ctx.errs ++ [.duplicatePattern x] }) := by
      simp [Resolver.addPattern, h, hsome]
    have hcpat : Resolver.resolveCPat nss current (.variable x sp) ctx =
        (.error, { ctx with
          patterns := alistInsert m x sp :: rest
          errs := ctx.errs ++ [.duplicatePattern x] }) := by
      rw [Resolver.resolveCPat_open nss current _ ctx m rest h]
      rw [Resolver.resolveCPatCore_variable_eq nss current x sp ctx false _
        haddp]
      rfl
    rw [List.map_cons]
    rw [Resolver.resolveCPatList_cons_eq nss current _ _ ctx _ _ hcpat]
    have hrec := ih { ctx with
        patterns := alistInsert m x sp :: rest
        errs := ctx.errs ++ [.duplicatePattern x] }
      (alistInsert m x sp) rest rfl
      (by rw [alistGet_insert_self]; rfl)
    refine ⟨?_, ?_⟩
    · show List.cons Resolver.APat.error _ = _
      rw [hrec.1, List.length_cons, List.replicate_succ]
    · show (Resolver.resolveCPatList nss current
        (sps.map (fun sp => Resolver.CPat.variable x sp)) _).2.errs = _
      rw [hrec.2]
      show ctx.errs ++ [.duplicatePattern x] ++ _ = _
      rw [List.append_assoc, List.length_cons, List.replicate_succ]
      rfl

/-- C5 (amended): resolving a pattern row that binds the same variable
`n ≥ 1` times reports one `DuplicatePattern` diagnostic per occurrence
after the first — in particular exactly one when the variable occurs
exactly twice — and still produces a resolved pattern for every
occurrence (the first stays a variable node, the re-bindings become error
nodes). -/
theorem duplicate_pattern_one_error_per_rebinding
    (nss : List Resolver.Namespace) (current : ModuleId) (x : VSym)
    (sp0 : Span) (sps : List Span) :
    (Resolver.resolvePatternVec nss current
      ((sp0 :: sps).map (fun sp => Resolver.CPat.variable x sp))
      Resolver.Ctx.initial).1 =
        .variable x :: List.replicate sps.length .error ∧
    (Resolver.resolvePatternVec nss current
      ((sp0 :: sps).map (fun sp => Resolver.CPat.variable x sp))
      Resolver.Ctx.initial).2.errs =
        List.replicate sps.length (.duplicatePattern x) := by
  have henter : Resolver.scopePatternEnter Resolver.Ctx.initial =
      (true, { patterns := [[]], varScopes := [], errs := [],
               panicked := false }) := by
    simp [Resolver.scopePatternEnter, Resolver.Ctx.initial]
  have haddp : Resolver.addPattern
      { patterns := [[]], varScopes := [], errs := [], panicked := false }
      x sp0 =
      (true, { patterns := [[(x, sp0)]], varScopes := [], errs := [],
               panicked := false }) := by
    simp [Resolver.addPattern, alistGet, alistInsert]
  have hcpat : Resolver.resolveCPat nss current (.variable x sp0)
      { patterns := [[]], varScopes := [], errs := [], panicked := false } =
      (.variable x,
       { patterns := [[(x, sp0)]], varScopes := [], errs := [],
         panicked := false }) := by
    rw [Resolver.resolveCPat_open nss current _ _ [] [] rfl]
    rw [Resolver.resolveCPatCore_variable_eq nss current x sp0 _ true _
      haddp]
    rfl
  have hrest := varlist_dup nss current x sps
    { patterns := [[(x, sp0)]], varScopes := [], errs := [],
      panicked := false }
    [(x, sp0)] [] rfl (by simp [alistGet])
  rw [Resolver.resolvePatternVec, henter]
  dsimp only
  rw [List.map_cons]
  rw [Resolver.resolveCPatList_cons_eq nss current _ _ _ _ _ hcpat]
  refine ⟨?_, ?_⟩
  · show List.cons (Resolver.APat.variable x) _ = _
    rw [hrest.1]
  · show (Resolver.scopePatternExit true _).errs = _
    rcases hpop : (Resolver.resolveCPatList nss current
      (sps.map (fun sp => Resolver.CPat.variable x sp))
      { patterns := [[(x, sp0)]], varScopes := [], errs := [],
        panicked := false }).2 with ⟨ps, vs, es, pk⟩
    have hst := (Resolver.resolveCPat_state nss current).2.2
      (sps.map (fun sp => Resolver.CPat.variable x sp))
      { patterns := [[(x, sp0)]], varScopes := [], errs := [],
        panicked := false } [(x, sp0)] [] rfl
    rw [hpop] at hst
    have hps : ps = [Resolver.capsListAux nss current
        (sps.map (fun sp => Resolver.CPat.variable x sp)) [(x, sp0)]] :=
      hst.1
    have hes : es = List.replicate sps.length (.duplicatePattern x) := by
      have := hrest.2
      rw [hpop] at this
      simpa using this
    rw [hps]
    simp [Resolver.scopePatternExit, hes]

/-- C5 (failing evaluation): a pattern row binding `x` three times at the
same nesting level, outside any or-pattern, yields two `DuplicatePattern`
diagnostics — not exactly one — while still producing a resolved pattern
for each occurrence. -/
theorem duplicate_pattern_three_occurrences :
    (Resolver.resolvePatternVec [] 0
      [.variable "x" (0, 1), .variable "x" (2, 3), .variable "x" (4, 5)]
      Resolver.Ctx.initial).2.errs =
        [.duplicatePattern "x", .duplicatePattern "x"] ∧
    (Resolver.resolvePatternVec [] 0
      [.variable "x" (0, 1), .variable "x" (2, 3), .variable "x" (4, 5)]
      Resolver.Ctx.initial).1 =
        [.variable "x", .error, .error] := by
  constructor
  · simp [Resolver.resolvePatternVec, Resolver.resolveCPat,
      Resolver.resolveCPatCore, Resolver.resolveCPatList,
      Resolver.scopePatternEnter, Resolver.scopePatternExit,
      Resolver.addPattern, Resolver.Ctx.initial, alistGet, alistInsert]
  · simp [Resolver.resolvePatternVec, Resolver.resolveCPat,
      Resolver.resolveCPatCore, Resolver.resolveCPatList,
      Resolver.scopePatternEnter, Resolver.scopePatternExit,
      Resolver.addPattern, Resolver.Ctx.initial, alistGet, alistInsert]

/-- C6: resolving a bare variable expression consults the Variable
capability of the scope stack first: when the symbol is lexically bound the
result is a local variable reference, with no diagnostic and no dependence
on the global registry (the conclusion holds for every registry); the
global lookup is consulted only when no lexical binding of that spelling is
in scope. -/
theorem variable_local_before_global (nss : List Resolver.Namespace)
    (current : ModuleId) (s : VSym) (sp : Span) (ctx : Resolver.Ctx) :
    (Resolver.kaleidoContains ctx.varScopes s = true →
      Resolver.resolveLExpr nss current (.variable s sp) ctx =
        (.variable s, ctx)) ∧
    (Resolver.kaleidoContains ctx.varScopes s = false →
      Resolver.resolveLExpr nss current (.variable s sp) ctx =
        Resolver.resolveVariableGlobal nss current s sp ctx) := by
  constructor
  · intro h
    simp [Resolver.resolveLExpr, h]
  · intro h
    simp [Resolver.resolveLExpr, h]

/-- Concrete instance of `variable_local_before_global`: with `x` bound in
the innermost Variable frame and a global function `x` also declared, the
variable expression `x` resolves to the local variable (the local binding
wins); with no lexical binding, the same expression resolves through the
global lookup to the function. -/
theorem variable_local_before_global_witness :
    Resolver.resolveLExpr globalXRegistry 0 (.variable "x" (0, 1))
      { patterns := [], varScopes := [["x"]], errs := [],
        panicked := false } =
      (.variable "x",
       { patterns := [], varScopes := [["x"]], errs := [],
         panicked := false }) ∧
    Resolver.resolveLExpr globalXRegistry 0 (.variable "x" (0, 1))
      Resolver.Ctx.initial =
      Resolver.resolveVariableGlobal globalXRegistry 0 "x" (0, 1)
        Resolver.Ctx.initial := by
  constructor
  · exact (variable_local_before_global globalXRegistry 0 "x" (0, 1)
      { patterns := [], varScopes := [["x"]], errs := [],
        panicked := false }).1 (by decide)
  · exact (variable_local_before_global globalXRegistry 0 "x" (0, 1)
      Resolver.Ctx.initial).2 (by decide)

theorem canonicalize_ok_no_errs (uses : List (VSym × List VSym))
    (tree : Legacy.MTree) (range : Span) (path : List VSym)
    (v : Option ModuleId)
    (h : (Legacy.canonicalize uses tree range path).1 = .ok v) :
    (Legacy.canonicalize uses tree range path).2 = [] := by
  cases path with
  | nil => rfl
  | cons p0 prest =>
    rcases hfind : Legacy.MTree.findId
        (Legacy.canonicalizeTarget uses tree p0 prest).1
        (Legacy.canonicalizeTarget uses tree p0 prest).2 with _ | id
    · rw [Legacy.canonicalize] at h
      rw [hfind] at h
      simp at h
    · rw [Legacy.canonicalize]
      rw [hfind]

/-- C8: the lookup contract of `Context::find` in `resolve.rs`.  The path
is canonicalized through the alias table first; when it resolves directly
via the module tree, resolution happens within that namespace and the
short-name import map is never consulted (the result is the same for any
content of that map).  Otherwise that map is consulted for the bare name: an
ambiguous entry reports `AmbiguousImport` and yields an error reference; a
candidate whose declaring namespace no longer contains the declaration
yields an error reference, with `CannotFind` reported exactly when
`report` is set; and otherwise the qualified reference is returned at the
reference's range. -/
theorem find_direct_or_import (uses : List (VSym × List VSym))
    (ms : Legacy.Modules)
    (imports : List (DataType × Legacy.ImportEntry)) (nsId : ModuleId)
    (q : Legacy.QPath) (report : Bool) (typ : VSym → DataType) :
    (∀ id, (Legacy.canonicalize uses ms.tree q.range q.segments).1 =
        .ok (some id) →
      Legacy.find uses ms imports nsId q report typ =
        (Legacy.findOnNamespace ms q.lastRange (typ q.lastSym) id, []) ∧
      ∀ imports', Legacy.find uses ms imports' nsId q report typ =
        Legacy.find uses ms imports nsId q report typ) ∧
    ((Legacy.canonicalize uses ms.tree q.range q.segments).1 = .ok none →
      ∀ res, Legacy.importGet imports (typ q.lastSym) = some res →
        (res.ambiguous = true →
          Legacy.find uses ms imports nsId q report typ =
            (.error res.canonical.getRange,
             [.ambiguousImport (typ q.lastSym)])) ∧
        (∀ c l rg, res.ambiguous = false →
          res.canonical = .resolved c l rg →
          ((ms.defsAt c).decls.contains (typ q.lastSym) = false →
            Legacy.find uses ms imports nsId q report typ =
              (.error q.lastRange,
               if report then [.cannotFind (typ q.lastSym)] else [])) ∧
          ((ms.defsAt c).decls.contains (typ q.lastSym) = true →
            Legacy.find uses ms imports nsId q report typ =
              (.resolved c l q.lastRange, [])))) := by
  constructor
  · intro id hc
    have herrs := canonicalize_ok_no_errs uses ms.tree q.range q.segments
      (some id) hc
    constructor
    · rw [Legacy.find]
      rw [hc, herrs]
    · intro imports'
      rw [Legacy.find, Legacy.find]
      rw [hc]
  · intro hc res hres
    have herrs := canonicalize_ok_no_errs uses ms.tree q.range q.segments
      none hc
    constructor
    · intro hamb
      rw [Legacy.find]
      rw [hc, herrs, Legacy.findImport, hres]
      simp [hamb]
    · intro c l rg hnamb hcanon
      constructor
      · intro hmiss
        rw [Legacy.find]
        rw [hc, herrs, Legacy.findImport, hres]
        have hmiss' : typ q.lastSym ∉ (ms.defsAt c).decls := by
          simpa using hmiss
        simp [hnamb, hcanon, hmiss']
      · intro hhit
        rw [Legacy.find]
        rw [hc, herrs, Legacy.findImport, hres]
        have hhit' : typ q.lastSym ∈ (ms.defsAt c).decls := by
          simpa using hhit
        simp [hnamb, hcanon, hhit']

/-- Concrete instance of `if_desugars_to_when`: with an empty registry,
`Bool.True` is not found, the first arm's pattern is the error marker, and
the lookup's diagnostics surface unchanged. -/
theorem if_desugars_to_when_witness :
    (Resolver.findValue ([] : List Resolver.Namespace) 0
      ["Bool", "True"]).1 = none ∧
    (Resolver.findConstructorRaw [] 0 (0, 1) ["Bool", "True"]).1 =
      Resolver.APat.error ∧
    (Resolver.findConstructorRaw [] 0 (0, 1) ["Bool", "True"]).2 =
      (Resolver.findValue [] 0 ["Bool", "True"]).2 := by
  have h := (if_desugars_to_when [] 0 (.literal 0) (.literal 1)
    (.literal 2) (0, 1) Resolver.Ctx.initial).2 rfl
  exact ⟨rfl, h.1, h.2⟩

/-- Concrete instance of `find_direct_or_import`: the qualified reference
`M.f` resolves directly through the module tree to namespace `1` (the
ambiguous import map is never consulted), while the bare reference `g`
goes through the import map and its ambiguous entry yields an
`AmbiguousImport` report and an error reference. -/
theorem find_direct_or_import_witness :
    Legacy.find [] findModulesW findImportsW 0
      ⟨["M"], "f", (5, 6), (0, 6)⟩ false DataType.dtLet =
      (.resolved 1 "f" (5, 6), []) ∧
    Legacy.find [] findModulesW findImportsW 0
      ⟨[], "g", (2, 3), (2, 3)⟩ false DataType.dtLet =
      (.error (9, 9), [.ambiguousImport (.dtLet "g")]) := by
  constructor
  · rw [((find_direct_or_import [] findModulesW findImportsW 0
      ⟨["M"], "f", (5, 6), (0, 6)⟩ false DataType.dtLet).1 1 rfl).1]
    rfl
  · exact ((find_direct_or_import [] findModulesW findImportsW 0
      ⟨[], "g", (2, 3), (2, 3)⟩ false DataType.dtLet).2 rfl
      ⟨.resolved 0 "g" (9, 9), true⟩ rfl).1 rfl
